import Mathlib

/-!
Shallow embedding of pacdef's reconciliation core (`src/core.rs`).

The driver code in `core.rs` (the collection loops with warn-and-skip, the
nothing-to-do checks, the confirmation gating, the listing loops that skip
empty entries, and the removal dispatch loop of `clean`) is translated
directly from the source.  The backend module (`Backends`, `ToDoPerBackend`
helpers, the sorted diff queries, and the install/remove mechanics) is not
part of the given sources; those operations are modelled from the spec, as
marked on each definition.

Effects are made explicit: every `println!`, confirmation prompt and
install/remove invocation becomes an `Event` in the run's trace, and the
injected confirmation capability is a `Bool` parameter.
-/

/-- A named group of per-backend package declarations.  Each declaration is a
`(section, package-name)` pair. -/
structure PkgGroup where
  name : String
  packages : List (String × String)
deriving DecidableEq

deriving instance DecidableEq for Except

/-- A backend instance as enumerated by the registry.  `sect` is its stable
section identifier; `declared` is populated by `load`; the fallible queries
and the outcomes of a confirmed install/remove invocation are data, so that a
run is a pure function of its inputs. -/
structure Backend where
  sect : String
  declared : List String
  installed : Except String (List String)
  explicitPkgs : Except String (List String)
  installOutcome : Except String Unit
  removeOutcome : Except String Unit
deriving DecidableEq

/-- `Backend::get_section`. -/
def Backend.get_section (b : Backend) : String := b.sect

/-- Modelled from the spec: `Backend::load` extracts from all groups the
declared package names relevant to this backend's section and populates the
backend's declared set; no side effect on the system. -/
def Backend.load (b : Backend) (groups : List PkgGroup) : Backend :=
  let decl := ((groups.map PkgGroup.packages).flatten).filterMap
    (fun pr => if pr.1 = b.sect then some pr.2 else none)
  { b with declared := decl }

/-- Modelled from the spec: the diff engine's sorted set difference
`sort(d \ i)` — duplicate-free and ascending lexicographic. -/
def diffSorted (d i : List String) : List String :=
  List.insertionSort (· ≤ ·) ((d.filter (fun p => decide (p ∉ i))).dedup)

/-- Modelled from the spec: `diff_missing` returns
`sort(declared − query_installed())` and fails iff the underlying query
fails. -/
def Backend.get_missing_packages_sorted (b : Backend) : Except String (List String) :=
  match b.installed with
  | Except.error e => Except.error e
  | Except.ok inst => Except.ok (diffSorted b.declared inst)

/-- Modelled from the spec: `diff_unmanaged` returns
`sort(query_explicit() − declared)` and fails iff the underlying query
fails. -/
def Backend.get_unmanaged_packages_sorted (b : Backend) : Except String (List String) :=
  match b.explicitPkgs with
  | Except.error e => Except.error e
  | Except.ok ex => Except.ok (diffSorted ex b.declared)

/-- One observable step of a run: a printed line, a printed backend section
header or package line inside a listing, the WARNING line that skips a
backend, the confirmation prompt, a completed install/remove action of one
backend, or a fatal execution-phase error. -/
inductive Event where
  | out (line : String)
  | outSection (sect : String)
  | outPkg (pkg : String)
  | warnSkip (sect : String) (err : String)
  | askConfirm
  | installAct (sect : String) (pkgs : List String)
  | removeAct (sect : String) (pkgs : List String)
  | fatal (err : String)
deriving DecidableEq

/-- `ToDoPerBackend`: the aggregate of (backend, package-set) pairs. -/
abbrev ToDoPerBackend := List (Backend × List String)

/-- Modelled from the spec: `ToDoPerBackend::nothing_to_do_for_all_backends`
(the spec's `has_nothing_to_do`) — true iff every entry's package set is
empty; a list with zero entries also counts as nothing to do. -/
def nothing_to_do_for_all_backends (t : ToDoPerBackend) : Bool :=
  t.all (fun e => e.2.isEmpty)

/-- Modelled from the spec: `ToDoPerBackend::is_empty`, the check used by
`clean_packages`; the spec's `has_nothing_to_do` — true iff every entry's
package set is empty. -/
def todo_is_empty (t : ToDoPerBackend) : Bool :=
  t.all (fun e => e.2.isEmpty)

/-- The shared shape of `get_missing_packages` and `get_unmanaged_packages`
in `core.rs`: iterate the registry's backends, load each with the groups,
run its sorted diff; on success push `(backend, diff)`, on failure print a
WARNING naming the backend's section and continue with the rest.  Returns
the aggregate together with the warning events, each in iteration order. -/
def collect (diffOf : Backend → Except String (List String)) (groups : List PkgGroup) :
    List Backend → ToDoPerBackend × List Event
  | [] => ([], [])
  | b0 :: rest =>
    let b := Backend.load b0 groups
    let r := collect diffOf groups rest
    match diffOf b with
    | Except.ok diff => ((b, diff) :: r.1, r.2)
    | Except.error e => (r.1, Event.warnSkip (Backend.get_section b) e :: r.2)

/-- `Pacdef::get_missing_packages`. -/
def get_missing_packages (groups : List PkgGroup) (backends : List Backend) :
    ToDoPerBackend × List Event :=
  collect Backend.get_missing_packages_sorted groups backends

/-- `Pacdef::get_unmanaged_packages`. -/
def get_unmanaged_packages (groups : List PkgGroup) (backends : List Backend) :
    ToDoPerBackend × List Event :=
  collect Backend.get_unmanaged_packages_sorted groups backends

/-- The listing loop of `show_unmanaged_packages` and of `clean_packages`
(and the spec's `render_summary`, modelling `ToDoPerBackend::show`): entries
with an empty package set are skipped; a kept entry prints its backend's
section header followed by its package lines. -/
def render_listing : ToDoPerBackend → List Event
  | [] => []
  | (b, pkgs) :: rest =>
    if pkgs.isEmpty then render_listing rest
    else Event.outSection (Backend.get_section b) :: (pkgs.map Event.outPkg ++ render_listing rest)

/-- Modelled from the spec: `ToDoPerBackend::install_missing_packages`
(the spec's `execute_install`) — call each backend's install in turn; a
failure is a terminal, user-visible error for the run and already-completed
actions are not rolled back. -/
def install_missing_packages : ToDoPerBackend → List Event
  | [] => []
  | (b, pkgs) :: rest =>
    match b.installOutcome with
    | Except.ok _ => Event.installAct b.sect pkgs :: install_missing_packages rest
    | Except.error e => [Event.fatal e]

/-- The removal dispatch loop at the end of `clean_packages`: invoke
`backend.remove_packages(packages)` for each entry in order.  The removal
mechanics are modelled from the spec (`execute_remove`): a failure is a
terminal, user-visible error and completed actions are not rolled back. -/
def clean_execute : ToDoPerBackend → List Event
  | [] => []
  | (b, pkgs) :: rest =>
    match b.removeOutcome with
    | Except.ok _ => Event.removeAct b.sect pkgs :: clean_execute rest
    | Except.error e => [Event.fatal e]

/-- `Pacdef::install_packages` (the `sync` action): collect missing
packages; if there is nothing to do, say so and stop; otherwise show the
summary, ask for confirmation, and install only when confirmed. -/
def install_packages (groups : List PkgGroup) (backends : List Backend) (confirm : Bool) :
    List Event :=
  let r := get_missing_packages groups backends
  if nothing_to_do_for_all_backends r.1 then
    r.2 ++ [Event.out "nothing to do"]
  else
    r.2 ++ render_listing r.1 ++ [Event.askConfirm] ++
      (if confirm then install_missing_packages r.1 else [])

/-- `Pacdef::show_unmanaged_packages` (the `unmanaged` action): collect and
display, nothing else. -/
def show_unmanaged_packages (groups : List PkgGroup) (backends : List Backend) :
    List Event :=
  let r := get_unmanaged_packages groups backends
  r.2 ++ render_listing r.1

/-- `Pacdef::show_groups` (the `groups` action): sort the loaded groups and
print each name.  The ordering on groups is by name (the spec makes the name
the unique, case-sensitive identifier). -/
def show_groups (groups : List PkgGroup) : List Event :=
  (List.insertionSort (fun a b => a.name ≤ b.name) groups).map (fun g => Event.out g.name)

/-- `Pacdef::clean_packages` (the `clean` action): collect unmanaged
packages; if there is nothing to do, say so and stop; otherwise print the
would-remove listing (skipping empty entries), ask for confirmation, and
dispatch removal for every collected entry only when confirmed. -/
def clean_packages (groups : List PkgGroup) (backends : List Backend) (confirm : Bool) :
    List Event :=
  let r := get_unmanaged_packages groups backends
  if todo_is_empty r.1 then
    r.2 ++ [Event.out "nothing to do"]
  else
    r.2 ++ [Event.out "Would remove the following packages and their dependencies:"] ++
      render_listing r.1 ++ [Event.askConfirm] ++
      (if confirm then clean_execute r.1 else [])

/-! ### Basic lemmas about the embedding -/

theorem Backend.sect_load (b : Backend) (groups : List PkgGroup) :
    (Backend.load b groups).sect = b.sect := rfl

theorem collect_fst_eq (f : Backend → Except String (List String)) (groups : List PkgGroup)
    (bs : List Backend) :
    (collect f groups bs).1 = bs.filterMap (fun b0 =>
      match f (Backend.load b0 groups) with
      | Except.ok d => some (Backend.load b0 groups, d)
      | Except.error _ => none) := by
  induction bs with
  | nil => rfl
  | cons b0 rest ih =>
    simp only [collect, List.filterMap_cons]
    cases h : f (Backend.load b0 groups) <;> simp [h, ih]

theorem collect_snd_eq (f : Backend → Except String (List String)) (groups : List PkgGroup)
    (bs : List Backend) :
    (collect f groups bs).2 = bs.filterMap (fun b0 =>
      match f (Backend.load b0 groups) with
      | Except.ok _ => none
      | Except.error e => some (Event.warnSkip (Backend.load b0 groups).sect e)) := by
  induction bs with
  | nil => rfl
  | cons b0 rest ih =>
    simp only [collect, List.filterMap_cons]
    cases h : f (Backend.load b0 groups) <;> simp [h, ih, Backend.get_section]

theorem mem_collect_fst (f : Backend → Except String (List String)) (groups : List PkgGroup)
    (bs : List Backend) (b : Backend) (d : List String) :
    (b, d) ∈ (collect f groups bs).1 ↔
      ∃ b0 ∈ bs, Backend.load b0 groups = b ∧ f b = Except.ok d := by
  rw [collect_fst_eq, List.mem_filterMap]
  constructor
  · rintro ⟨b0, hb0, hsome⟩
    cases h : f (Backend.load b0 groups) with
    | ok d0 =>
      rw [h] at hsome
      obtain ⟨rfl, rfl⟩ : Backend.load b0 groups = b ∧ d0 = d := by
        simpa using hsome
      exact ⟨b0, hb0, rfl, h⟩
    | error e => rw [h] at hsome; cases hsome
  · rintro ⟨b0, hb0, rfl, hok⟩
    exact ⟨b0, hb0, by rw [hok]⟩

theorem collect_snd_warnSkip (f : Backend → Except String (List String))
    (groups : List PkgGroup) (bs : List Backend) :
    ∀ ev ∈ (collect f groups bs).2, ∃ s e, ev = Event.warnSkip s e := by
  intro ev hev
  rw [collect_snd_eq, List.mem_filterMap] at hev
  rcases hev with ⟨b0, _, hsome⟩
  cases h : f (Backend.load b0 groups) with
  | ok d => rw [h] at hsome; cases hsome
  | error e =>
    rw [h] at hsome
    exact ⟨_, _, (Option.some.inj hsome).symm⟩

theorem warnSkip_mem_collect_snd (f : Backend → Except String (List String))
    (groups : List PkgGroup) (bs : List Backend) (b0 : Backend) (e : String)
    (hb0 : b0 ∈ bs) (h : f (Backend.load b0 groups) = Except.error e) :
    Event.warnSkip (Backend.load b0 groups).sect e ∈ (collect f groups bs).2 := by
  rw [collect_snd_eq, List.mem_filterMap]
  exact ⟨b0, hb0, by rw [h]⟩

theorem collect_fst_sects_sublist (f : Backend → Except String (List String))
    (groups : List PkgGroup) (bs : List Backend) :
    ((collect f groups bs).1.map (fun e => e.1.sect)).Sublist (bs.map Backend.sect) := by
  induction bs with
  | nil => simp [collect]
  | cons b0 rest ih =>
    simp only [collect, List.map_cons]
    cases h : f (Backend.load b0 groups) with
    | ok d =>
      simp only [h, List.map_cons]
      exact (ih.cons₂ b0.sect)
    | error e =>
      simp only [h]
      exact ih.cons b0.sect

theorem render_listing_events (t : ToDoPerBackend) :
    ∀ ev ∈ render_listing t, (∃ s, ev = Event.outSection s) ∨ ∃ p, ev = Event.outPkg p := by
  induction t with
  | nil => intro ev hev; cases hev
  | cons hd tl ih =>
    rcases hd with ⟨b, pkgs⟩
    intro ev hev
    rw [render_listing] at hev
    by_cases hp : pkgs.isEmpty
    · rw [if_pos hp] at hev
      exact ih ev hev
    · rw [if_neg hp] at hev
      rcases List.mem_cons.1 hev with h1 | h1
      · exact Or.inl ⟨_, h1⟩
      · rcases List.mem_append.1 h1 with h2 | h2
        · rcases List.mem_map.1 h2 with ⟨p, _, rfl⟩
          exact Or.inr ⟨p, rfl⟩
        · exact ih ev h2

theorem outSection_mem_render_listing (t : ToDoPerBackend) (s : String) :
    Event.outSection s ∈ render_listing t ↔ ∃ e ∈ t, e.1.sect = s ∧ e.2 ≠ [] := by
  induction t with
  | nil => simp [render_listing]
  | cons hd tl ih =>
    rcases hd with ⟨b, pkgs⟩
    rw [render_listing]
    by_cases hp : pkgs.isEmpty
    · rw [if_pos hp]
      have hnil : pkgs = [] := List.isEmpty_iff.1 hp
      subst hnil
      simp [ih]
    · rw [if_neg hp]
      have hne : pkgs ≠ [] := by simpa [List.isEmpty_iff] using hp
      simp only [List.mem_cons, List.mem_append, List.mem_map, ih, Backend.get_section]
      constructor
      · rintro (h1 | ⟨p, _, h1⟩ | ⟨e, he, h1, h2⟩)
        · exact ⟨(b, pkgs), Or.inl rfl, (Event.outSection.injEq _ _ ▸ h1).symm, hne⟩
        · cases h1
        · exact ⟨e, Or.inr he, h1, h2⟩
      · rintro ⟨e, (rfl | he), h1, h2⟩
        · exact Or.inl (by rw [h1])
        · exact Or.inr (Or.inr ⟨e, he, h1, h2⟩)

theorem install_missing_packages_all_ok (t : ToDoPerBackend)
    (h : ∀ x ∈ t, x.1.installOutcome = Except.ok ()) :
    install_missing_packages t = t.map (fun x => Event.installAct x.1.sect x.2) := by
  induction t with
  | nil => rfl
  | cons hd tl ih =>
    rcases hd with ⟨b, pkgs⟩
    have hb := h (b, pkgs) (List.mem_cons_self _ _)
    rw [install_missing_packages, hb, List.map_cons]
    rw [ih (fun x hx => h x (List.mem_cons_of_mem _ hx))]

theorem clean_execute_all_ok (t : ToDoPerBackend)
    (h : ∀ x ∈ t, x.1.removeOutcome = Except.ok ()) :
    clean_execute t = t.map (fun x => Event.removeAct x.1.sect x.2) := by
  induction t with
  | nil => rfl
  | cons hd tl ih =>
    rcases hd with ⟨b, pkgs⟩
    have hb := h (b, pkgs) (List.mem_cons_self _ _)
    rw [clean_execute, hb, List.map_cons]
    rw [ih (fun x hx => h x (List.mem_cons_of_mem _ hx))]

theorem install_missing_packages_fail (pre post : ToDoPerBackend) (b : Backend)
    (pkgs : List String) (e : String)
    (hpre : ∀ x ∈ pre, x.1.installOutcome = Except.ok ())
    (hb : b.installOutcome = Except.error e) :
    install_missing_packages (pre ++ (b, pkgs) :: post) =
      pre.map (fun x => Event.installAct x.1.sect x.2) ++ [Event.fatal e] := by
  induction pre with
  | nil => rw [List.nil_append, install_missing_packages, hb]; rfl
  | cons hd tl ih =>
    rcases hd with ⟨b1, p1⟩
    have h1 := hpre (b1, p1) (List.mem_cons_self _ _)
    rw [List.cons_append, install_missing_packages, h1, List.map_cons]
    rw [ih (fun x hx => hpre x (List.mem_cons_of_mem _ hx))]
    rfl

theorem clean_execute_fail (pre post : ToDoPerBackend) (b : Backend)
    (pkgs : List String) (e : String)
    (hpre : ∀ x ∈ pre, x.1.removeOutcome = Except.ok ())
    (hb : b.removeOutcome = Except.error e) :
    clean_execute (pre ++ (b, pkgs) :: post) =
      pre.map (fun x => Event.removeAct x.1.sect x.2) ++ [Event.fatal e] := by
  induction pre with
  | nil => rw [List.nil_append, clean_execute, hb]; rfl
  | cons hd tl ih =>
    rcases hd with ⟨b1, p1⟩
    have h1 := hpre (b1, p1) (List.mem_cons_self _ _)
    rw [List.cons_append, clean_execute, h1, List.map_cons]
    rw [ih (fun x hx => hpre x (List.mem_cons_of_mem _ hx))]
    rfl

theorem nothing_to_do_iff (t : ToDoPerBackend) :
    nothing_to_do_for_all_backends t = true ↔ ∀ e ∈ t, e.2 = [] := by
  simp [nothing_to_do_for_all_backends, List.all_eq_true, List.isEmpty_iff]

theorem todo_is_empty_iff (t : ToDoPerBackend) :
    todo_is_empty t = true ↔ ∀ e ∈ t, e.2 = [] := by
  simp [todo_is_empty, List.all_eq_true, List.isEmpty_iff]

theorem clean_execute_events (t : ToDoPerBackend) :
    ∀ ev ∈ clean_execute t,
      (∃ s p, ev = Event.removeAct s p) ∨ ∃ e, ev = Event.fatal e := by
  induction t with
  | nil => intro ev hev; cases hev
  | cons hd tl ih =>
    rcases hd with ⟨b, pkgs⟩
    intro ev hev
    rw [clean_execute] at hev
    cases hout : b.removeOutcome with
    | ok u =>
      rw [hout] at hev
      rcases List.mem_cons.1 hev with h1 | h1
      · exact Or.inl ⟨_, _, h1⟩
      · exact ih ev h1
    | error e =>
      rw [hout] at hev
      rcases List.mem_cons.1 hev with h1 | h1
      · exact Or.inr ⟨_, h1⟩
      · cases h1

theorem diffSorted_spec (d i : List String) :
    List.Sorted (· ≤ ·) (diffSorted d i) ∧ (diffSorted d i).Nodup ∧
      ∀ x, x ∈ diffSorted d i ↔ x ∈ d ∧ x ∉ i := by
  refine ⟨List.sorted_insertionSort _ _, ?_, ?_⟩
  · exact (List.perm_insertionSort _ _).nodup_iff.mpr (List.nodup_dedup _)
  · intro x
    rw [diffSorted, (List.perm_insertionSort _ _).mem_iff, List.mem_dedup, List.mem_filter]
    simp

theorem orderedInsert_name_map (g : PkgGroup) (l : List PkgGroup) :
    (List.orderedInsert (fun a b : PkgGroup => a.name ≤ b.name) g l).map PkgGroup.name =
      List.orderedInsert (· ≤ ·) g.name (l.map PkgGroup.name) := by
  induction l with
  | nil => rfl
  | cons hd tl ih =>
    simp only [List.map_cons, List.orderedInsert]
    by_cases hle : g.name ≤ hd.name
    · rw [if_pos hle, if_pos hle, List.map_cons, List.map_cons]
    · rw [if_neg hle, if_neg hle, List.map_cons, ih]

theorem insertionSort_name_map (l : List PkgGroup) :
    (List.insertionSort (fun a b : PkgGroup => a.name ≤ b.name) l).map PkgGroup.name =
      List.insertionSort (· ≤ ·) (l.map PkgGroup.name) := by
  induction l with
  | nil => rfl
  | cons hd tl ih =>
    rw [List.insertionSort, List.map_cons, List.insertionSort, ← ih, orderedInsert_name_map]

/-- Does an event mutate the underlying system (a completed install or
remove action)? -/
def mutates : Event → Bool
  | Event.installAct _ _ => true
  | Event.removeAct _ _ => true
  | _ => false

theorem not_mem_of_all_not_mutates (tr : List Event) (h : ∀ ev ∈ tr, mutates ev = false) :
    ∀ s p, Event.installAct s p ∉ tr ∧ Event.removeAct s p ∉ tr := by
  intro s p
  constructor <;> intro hmem <;> have hx := h _ hmem <;> simp [mutates] at hx

theorem warnings_not_mutates (f : Backend → Except String (List String))
    (groups : List PkgGroup) (bs : List Backend) :
    ∀ ev ∈ (collect f groups bs).2, mutates ev = false := by
  intro ev hev
  rcases collect_snd_warnSkip f groups bs ev hev with ⟨s, e, rfl⟩
  rfl

theorem render_not_mutates (t : ToDoPerBackend) :
    ∀ ev ∈ render_listing t, mutates ev = false := by
  intro ev hev
  rcases render_listing_events t ev hev with ⟨s, rfl⟩ | ⟨p, rfl⟩ <;> rfl

/-! ### The claims -/

/-- C1: for both the sync and the clean action, whenever every collected
package set is empty (including the case of zero collected entries), the run
prints "nothing to do", requests no confirmation, and performs no install or
remove action. -/
theorem nothing_to_do_runs_no_action (groups : List PkgGroup) (backends : List Backend)
    (confirm : Bool) :
    ((∀ e ∈ (get_missing_packages groups backends).1, e.2 = ([] : List String)) →
      Event.out "nothing to do" ∈ install_packages groups backends confirm ∧
      Event.askConfirm ∉ install_packages groups backends confirm ∧
      ∀ s p, Event.installAct s p ∉ install_packages groups backends confirm ∧
        Event.removeAct s p ∉ install_packages groups backends confirm) ∧
    ((∀ e ∈ (get_unmanaged_packages groups backends).1, e.2 = ([] : List String)) →
      Event.out "nothing to do" ∈ clean_packages groups backends confirm ∧
      Event.askConfirm ∉ clean_packages groups backends confirm ∧
      ∀ s p, Event.installAct s p ∉ clean_packages groups backends confirm ∧
        Event.removeAct s p ∉ clean_packages groups backends confirm) := by
  constructor
  · intro h
    have hn : nothing_to_do_for_all_backends (get_missing_packages groups backends).1 = true :=
      (nothing_to_do_iff _).2 h
    have htr : install_packages groups backends confirm =
        (get_missing_packages groups backends).2 ++ [Event.out "nothing to do"] := by
      simp only [install_packages]
      rw [if_pos hn]
    rw [htr]
    refine ⟨List.mem_append_right _ (List.mem_singleton_self _), ?_, ?_⟩
    · intro hmem
      rcases List.mem_append.1 hmem with h1 | h1
      · rcases collect_snd_warnSkip Backend.get_missing_packages_sorted groups backends _ h1
          with ⟨s, e, he⟩
        cases he
      · simp at h1
    · refine not_mem_of_all_not_mutates _ ?_
      intro ev hev
      rcases List.mem_append.1 hev with h1 | h1
      · exact warnings_not_mutates Backend.get_missing_packages_sorted groups backends ev h1
      · rcases List.mem_singleton.1 h1 with rfl
        rfl
  · intro h
    have hn : todo_is_empty (get_unmanaged_packages groups backends).1 = true :=
      (todo_is_empty_iff _).2 h
    have htr : clean_packages groups backends confirm =
        (get_unmanaged_packages groups backends).2 ++ [Event.out "nothing to do"] := by
      simp only [clean_packages]
      rw [if_pos hn]
    rw [htr]
    refine ⟨List.mem_append_right _ (List.mem_singleton_self _), ?_, ?_⟩
    · intro hmem
      rcases List.mem_append.1 hmem with h1 | h1
      · rcases collect_snd_warnSkip Backend.get_unmanaged_packages_sorted groups backends _ h1
          with ⟨s, e, he⟩
        cases he
      · simp at h1
    · refine not_mem_of_all_not_mutates _ ?_
      intro ev hev
      rcases List.mem_append.1 hev with h1 | h1
      · exact warnings_not_mutates Backend.get_unmanaged_packages_sorted groups backends ev h1
      · rcases List.mem_singleton.1 h1 with rfl
        rfl

/-- C1 witness: a run over an empty registry reports "nothing to do" for
both sync and clean. -/
theorem nothing_to_do_runs_no_action_witness :
    Event.out "nothing to do" ∈ install_packages [] [] false ∧
    Event.out "nothing to do" ∈ clean_packages [] [] false :=
  ⟨((nothing_to_do_runs_no_action [] [] false).1 (by intro e he; cases he)).1,
   ((nothing_to_do_runs_no_action [] [] false).2 (by intro e he; cases he)).1⟩

/-- A sample backend whose queries succeed. -/
def bPkg : Backend :=
  { sect := "pkg", declared := [], installed := Except.ok ["git", "curl"],
    explicitPkgs := Except.ok ["git", "curl"], installOutcome := Except.ok (),
    removeOutcome := Except.ok () }

/-- A sample backend whose queries fail. -/
def bBad : Backend :=
  { sect := "bad", declared := [], installed := Except.error "boom",
    explicitPkgs := Except.error "boom", installOutcome := Except.error "fail",
    removeOutcome := Except.error "fail" }

/-- A sample group declaring two packages for the `pkg` backend. -/
def gBase : PkgGroup := { name := "base", packages := [("pkg", "vim"), ("pkg", "git")] }

/-- C2: during collection (both `get_missing_packages` and
`get_unmanaged_packages`), every backend whose diff query fails gets a
warning naming its section and contributes no entry, and every backend whose
query succeeds contributes its entry; this holds for each backend of the
registry list regardless of what the other backends do, so one failure never
aborts the processing of the rest. -/
theorem collection_partial_failure_isolation (groups : List PkgGroup)
    (backends : List Backend) (b0 : Backend) (hmem : b0 ∈ backends) :
    ((∀ e, (Backend.load b0 groups).get_missing_packages_sorted = Except.error e →
        Event.warnSkip (Backend.load b0 groups).sect e ∈
          (get_missing_packages groups backends).2 ∧
        ∀ d, (Backend.load b0 groups, d) ∉ (get_missing_packages groups backends).1) ∧
      ∀ d, (Backend.load b0 groups).get_missing_packages_sorted = Except.ok d →
        (Backend.load b0 groups, d) ∈ (get_missing_packages groups backends).1) ∧
    ((∀ e, (Backend.load b0 groups).get_unmanaged_packages_sorted = Except.error e →
        Event.warnSkip (Backend.load b0 groups).sect e ∈
          (get_unmanaged_packages groups backends).2 ∧
        ∀ d, (Backend.load b0 groups, d) ∉ (get_unmanaged_packages groups backends).1) ∧
      ∀ d, (Backend.load b0 groups).get_unmanaged_packages_sorted = Except.ok d →
        (Backend.load b0 groups, d) ∈ (get_unmanaged_packages groups backends).1) := by
  constructor
  · constructor
    · intro e he
      constructor
      · exact warnSkip_mem_collect_snd _ groups backends b0 e hmem he
      · intro d hd
        have := (mem_collect_fst _ groups backends _ d).1 hd
        rcases this with ⟨b1, _, _, hok⟩
        rw [he] at hok
        cases hok
    · intro d hd
      exact (mem_collect_fst _ groups backends _ d).2 ⟨b0, hmem, rfl, hd⟩
  · constructor
    · intro e he
      constructor
      · exact warnSkip_mem_collect_snd _ groups backends b0 e hmem he
      · intro d hd
        have := (mem_collect_fst _ groups backends _ d).1 hd
        rcases this with ⟨b1, _, _, hok⟩
        rw [he] at hok
        cases hok
    · intro d hd
      exact (mem_collect_fst _ groups backends _ d).2 ⟨b0, hmem, rfl, hd⟩

/-- C2 witness: with one failing and one succeeding backend, the failing one
is warned about and excluded while the succeeding one contributes. -/
theorem collection_partial_failure_isolation_witness :
    bBad ∈ [bPkg, bBad] ∧
    Event.warnSkip (Backend.load bBad [gBase]).sect "boom" ∈
      (get_missing_packages [gBase] [bPkg, bBad]).2 ∧
    (∀ d, (Backend.load bBad [gBase], d) ∉ (get_missing_packages [gBase] [bPkg, bBad]).1) ∧
    (Backend.load bPkg [gBase], diffSorted (Backend.load bPkg [gBase]).declared ["git", "curl"]) ∈
      (get_missing_packages [gBase] [bPkg, bBad]).1 := by
  refine ⟨by simp, ?_, ?_, ?_⟩
  · exact ((collection_partial_failure_isolation [gBase] [bPkg, bBad] bBad (by simp)).1.1
      "boom" rfl).1
  · exact ((collection_partial_failure_isolation [gBase] [bPkg, bBad] bBad (by simp)).1.1
      "boom" rfl).2
  · exact (collection_partial_failure_isolation [gBase] [bPkg, bBad] bPkg (by simp)).1.2
      _ rfl

theorem install_packages_declined (groups : List PkgGroup) (backends : List Backend) :
    install_packages groups backends false =
      (get_missing_packages groups backends).2 ++ [Event.out "nothing to do"] ∨
    install_packages groups backends false =
      (get_missing_packages groups backends).2 ++
        render_listing (get_missing_packages groups backends).1 ++ [Event.askConfirm] := by
  by_cases hn : nothing_to_do_for_all_backends (get_missing_packages groups backends).1 = true
  · left
    simp only [install_packages]
    rw [if_pos hn]
  · right
    simp only [install_packages]
    rw [if_neg hn]
    simp

theorem clean_packages_declined (groups : List PkgGroup) (backends : List Backend) :
    clean_packages groups backends false =
      (get_unmanaged_packages groups backends).2 ++ [Event.out "nothing to do"] ∨
    clean_packages groups backends false =
      (get_unmanaged_packages groups backends).2 ++
        [Event.out "Would remove the following packages and their dependencies:"] ++
        render_listing (get_unmanaged_packages groups backends).1 ++ [Event.askConfirm] := by
  by_cases hn : todo_is_empty (get_unmanaged_packages groups backends).1 = true
  · left
    simp only [clean_packages]
    rw [if_pos hn]
  · right
    simp only [clean_packages]
    rw [if_neg hn]
    simp

/-- C3: a run of sync or clean in which the user declines the confirmation
prompt performs no install and no remove action on any backend. -/
theorem declined_confirmation_no_mutation (groups : List PkgGroup) (backends : List Backend) :
    ∀ s p, (Event.installAct s p ∉ install_packages groups backends false ∧
            Event.removeAct s p ∉ install_packages groups backends false) ∧
           (Event.installAct s p ∉ clean_packages groups backends false ∧
            Event.removeAct s p ∉ clean_packages groups backends false) := by
  intro s p
  constructor
  · refine not_mem_of_all_not_mutates _ ?_ s p
    intro ev hev
    rcases install_packages_declined groups backends with htr | htr <;> rw [htr] at hev
    · rcases List.mem_append.1 hev with h1 | h1
      · exact warnings_not_mutates Backend.get_missing_packages_sorted groups backends ev h1
      · rcases List.mem_singleton.1 h1 with rfl
        rfl
    · rcases List.mem_append.1 hev with h1 | h1
      · rcases List.mem_append.1 h1 with h2 | h2
        · exact warnings_not_mutates Backend.get_missing_packages_sorted groups backends ev h2
        · exact render_not_mutates _ ev h2
      · rcases List.mem_singleton.1 h1 with rfl
        rfl
  · refine not_mem_of_all_not_mutates _ ?_ s p
    intro ev hev
    rcases clean_packages_declined groups backends with htr | htr <;> rw [htr] at hev
    · rcases List.mem_append.1 hev with h1 | h1
      · exact warnings_not_mutates Backend.get_unmanaged_packages_sorted groups backends ev h1
      · rcases List.mem_singleton.1 h1 with rfl
        rfl
    · rcases List.mem_append.1 hev with h1 | h1
      · rcases List.mem_append.1 h1 with h2 | h2
        · rcases List.mem_append.1 h2 with h3 | h3
          · exact warnings_not_mutates Backend.get_unmanaged_packages_sorted groups backends ev h3
          · rcases List.mem_singleton.1 h3 with rfl
            rfl
        · exact render_not_mutates _ ev h2
      · rcases List.mem_singleton.1 h1 with rfl
        rfl

/-- C4: an install or remove failure during the confirmed execution phase
produces a fatal, user-visible error event that ends the run — no later
entry is acted on — while the per-backend actions completed before the
failure remain in the trace (no rollback). -/
theorem action_failure_is_fatal (pre post : ToDoPerBackend) (b : Backend)
    (pkgs : List String) (e : String) :
    ((∀ x ∈ pre, x.1.installOutcome = Except.ok ()) → b.installOutcome = Except.error e →
      install_missing_packages (pre ++ (b, pkgs) :: post) =
        pre.map (fun x => Event.installAct x.1.sect x.2) ++ [Event.fatal e]) ∧
    ((∀ x ∈ pre, x.1.removeOutcome = Except.ok ()) → b.removeOutcome = Except.error e →
      clean_execute (pre ++ (b, pkgs) :: post) =
        pre.map (fun x => Event.removeAct x.1.sect x.2) ++ [Event.fatal e]) :=
  ⟨fun hpre hb => install_missing_packages_fail pre post b pkgs e hpre hb,
   fun hpre hb => clean_execute_fail pre post b pkgs e hpre hb⟩

/-- C4 witness: with a failing backend in the middle, the first action is
kept, the failure is fatal, and the entry after the failure is not acted
on. -/
theorem action_failure_is_fatal_witness :
    install_missing_packages [(bPkg, ["vim"]), (bBad, ["a"]), (bPkg, ["b"])] =
      [Event.installAct "pkg" ["vim"], Event.fatal "fail"] ∧
    clean_execute [(bPkg, ["vim"]), (bBad, ["a"]), (bPkg, ["b"])] =
      [Event.removeAct "pkg" ["vim"], Event.fatal "fail"] := by
  constructor
  · have h := (action_failure_is_fatal [(bPkg, ["vim"])] [(bPkg, ["b"])] bBad ["a"] "fail").1
      (by intro x hx; rcases List.mem_singleton.1 hx with rfl; rfl) rfl
    simpa [bPkg] using h
  · have h := (action_failure_is_fatal [(bPkg, ["vim"])] [(bPkg, ["b"])] bBad ["a"] "fail").2
      (by intro x hx; rcases List.mem_singleton.1 hx with rfl; rfl) rfl
    simpa [bPkg] using h

/-- C10: in a confirmed clean run with something to do, the removal of every
collected entry is dispatched exactly once, in collection order, including
entries with an empty package set; no entry is filtered before dispatch. -/
theorem clean_confirmed_removes_every_entry (groups : List PkgGroup) (backends : List Backend)
    (hok : ∀ x ∈ (get_unmanaged_packages groups backends).1, x.1.removeOutcome = Except.ok ())
    (hne : todo_is_empty (get_unmanaged_packages groups backends).1 = false) :
    clean_packages groups backends true =
      (get_unmanaged_packages groups backends).2 ++
      [Event.out "Would remove the following packages and their dependencies:"] ++
      render_listing (get_unmanaged_packages groups backends).1 ++ [Event.askConfirm] ++
      (get_unmanaged_packages groups backends).1.map
        (fun x => Event.removeAct x.1.sect x.2) := by
  simp only [clean_packages]
  rw [if_neg (by simp [hne])]
  rw [clean_execute_all_ok _ hok]
  simp


/-- A sample backend with a single explicitly installed package. -/
def bOne : Backend :=
  { sect := "pkg", declared := [], installed := Except.ok ["curl"],
    explicitPkgs := Except.ok ["curl"], installOutcome := Except.ok (),
    removeOutcome := Except.ok () }

/-- C10 witness: a concrete confirmed clean run over one backend with a
non-empty unmanaged set dispatches exactly its entries. -/
theorem clean_confirmed_removes_every_entry_witness :
    clean_packages [] [bOne] true =
      (get_unmanaged_packages [] [bOne]).2 ++
      [Event.out "Would remove the following packages and their dependencies:"] ++
      render_listing (get_unmanaged_packages [] [bOne]).1 ++ [Event.askConfirm] ++
      (get_unmanaged_packages [] [bOne]).1.map
        (fun x => Event.removeAct x.1.sect x.2) :=
  clean_confirmed_removes_every_entry [] [bOne] (by decide) (by decide)

/-- C5: for every backend whose installed-packages query succeeds with set
`inst`, the missing-packages diff succeeds and equals the sorted set
difference `declared \ inst`: it holds exactly the declared-but-not-installed
names, without duplicates, in ascending lexicographic order. -/
theorem missing_diff_is_sorted_difference (b : Backend) (inst : List String)
    (h : b.installed = Except.ok inst) :
    ∃ L, Backend.get_missing_packages_sorted b = Except.ok L ∧
      List.Sorted (· ≤ ·) L ∧ L.Nodup ∧ ∀ x, x ∈ L ↔ x ∈ b.declared ∧ x ∉ inst := by
  refine ⟨diffSorted b.declared inst, ?_, (diffSorted_spec _ _).1, (diffSorted_spec _ _).2.1,
    (diffSorted_spec _ _).2.2⟩
  rw [Backend.get_missing_packages_sorted, h]

/-- C5 witness: the sample backend's diff is computed and characterised. -/
theorem missing_diff_is_sorted_difference_witness :
    bOne.installed = Except.ok ["curl"] ∧
    ∃ L, Backend.get_missing_packages_sorted bOne = Except.ok L ∧
      List.Sorted (· ≤ ·) L ∧ L.Nodup ∧ ∀ x, x ∈ L ↔ x ∈ bOne.declared ∧ x ∉ ["curl"] :=
  ⟨rfl, missing_diff_is_sorted_difference bOne ["curl"] rfl⟩

/-- C7: the unmanaged action is read-only: its trace is exactly the
collection warnings followed by the rendered listing, it never requests
confirmation, and it performs no install or remove action. -/
theorem unmanaged_is_read_only (groups : List PkgGroup) (backends : List Backend) :
    show_unmanaged_packages groups backends =
      (get_unmanaged_packages groups backends).2 ++
        render_listing (get_unmanaged_packages groups backends).1 ∧
    Event.askConfirm ∉ show_unmanaged_packages groups backends ∧
    ∀ s p, Event.installAct s p ∉ show_unmanaged_packages groups backends ∧
      Event.removeAct s p ∉ show_unmanaged_packages groups backends := by
  have htr : show_unmanaged_packages groups backends =
      (get_unmanaged_packages groups backends).2 ++
        render_listing (get_unmanaged_packages groups backends).1 := rfl
  refine ⟨htr, ?_, ?_⟩
  · intro hmem
    rw [htr] at hmem
    rcases List.mem_append.1 hmem with h1 | h1
    · rcases collect_snd_warnSkip Backend.get_unmanaged_packages_sorted groups backends _ h1
        with ⟨_, _, he⟩
      cases he
    · rcases render_listing_events _ _ h1 with ⟨_, he⟩ | ⟨_, he⟩ <;> cases he
  · refine not_mem_of_all_not_mutates _ ?_
    intro ev hev
    rw [htr] at hev
    rcases List.mem_append.1 hev with h1 | h1
    · exact warnings_not_mutates Backend.get_unmanaged_packages_sorted groups backends ev h1
    · exact render_not_mutates _ ev h1

/-- C8: the groups action prints exactly the names of all declared groups,
each exactly once, in ascending order. -/
theorem groups_lists_sorted_names (groups : List PkgGroup)
    (h : (groups.map PkgGroup.name).Nodup) :
    ∃ ns : List String, show_groups groups = ns.map Event.out ∧
      List.Sorted (· ≤ ·) ns ∧ ns.Nodup ∧
      ∀ n, n ∈ ns ↔ n ∈ groups.map PkgGroup.name := by
  refine ⟨(List.insertionSort (fun a b : PkgGroup => a.name ≤ b.name) groups).map PkgGroup.name,
    ?_, ?_, ?_, ?_⟩
  · rw [show_groups, List.map_map]
    rfl
  · rw [insertionSort_name_map]
    exact List.sorted_insertionSort _ _
  · rw [insertionSort_name_map]
    exact (List.perm_insertionSort _ _).nodup_iff.mpr h
  · intro n
    rw [insertionSort_name_map]
    exact (List.perm_insertionSort _ _).mem_iff

/-- C8 witness: two concretely named groups are listed sorted. -/
theorem groups_lists_sorted_names_witness :
    ([PkgGroup.mk "b" [], PkgGroup.mk "a" []].map PkgGroup.name).Nodup ∧
    ∃ ns : List String,
      show_groups [PkgGroup.mk "b" [], PkgGroup.mk "a" []] = ns.map Event.out ∧
      List.Sorted (· ≤ ·) ns ∧ ns.Nodup ∧
      ∀ n, n ∈ ns ↔ n ∈ [PkgGroup.mk "b" [], PkgGroup.mk "a" []].map PkgGroup.name :=
  ⟨by decide, groups_lists_sorted_names _ (by decide)⟩

/-- C6: every rendered summary — the unmanaged listing and the clean
would-remove listing — prints a backend section iff that backend's collected
package set is non-empty; entries with empty sets are skipped. -/
theorem summary_skips_empty_sets (groups : List PkgGroup) (backends : List Backend)
    (confirm : Bool) (s : String) :
    (Event.outSection s ∈ show_unmanaged_packages groups backends ↔
      ∃ e ∈ (get_unmanaged_packages groups backends).1, e.1.sect = s ∧ e.2 ≠ []) ∧
    (Event.outSection s ∈ clean_packages groups backends confirm ↔
      ∃ e ∈ (get_unmanaged_packages groups backends).1, e.1.sect = s ∧ e.2 ≠ []) := by
  have hws : ∀ ev ∈ (get_unmanaged_packages groups backends).2,
      ∃ a b, ev = Event.warnSkip a b :=
    collect_snd_warnSkip Backend.get_unmanaged_packages_sorted groups backends
  constructor
  · have htr : show_unmanaged_packages groups backends =
        (get_unmanaged_packages groups backends).2 ++
          render_listing (get_unmanaged_packages groups backends).1 := rfl
    rw [htr]
    constructor
    · intro hmem
      rcases List.mem_append.1 hmem with h1 | h1
      · rcases hws _ h1 with ⟨_, _, he⟩
        cases he
      · exact (outSection_mem_render_listing _ s).1 h1
    · intro hex
      exact List.mem_append_right _ ((outSection_mem_render_listing _ s).2 hex)
  · by_cases hn : todo_is_empty (get_unmanaged_packages groups backends).1 = true
    · have htr : clean_packages groups backends confirm =
          (get_unmanaged_packages groups backends).2 ++ [Event.out "nothing to do"] := by
        simp only [clean_packages]
        rw [if_pos hn]
      rw [htr]
      constructor
      · intro hmem
        rcases List.mem_append.1 hmem with h1 | h1
        · rcases hws _ h1 with ⟨_, _, he⟩
          cases he
        · simp at h1
      · rintro ⟨e, he, _, hne⟩
        exact absurd ((todo_is_empty_iff _).1 hn e he) hne
    · have htr : clean_packages groups backends confirm =
          (get_unmanaged_packages groups backends).2 ++
            [Event.out "Would remove the following packages and their dependencies:"] ++
            render_listing (get_unmanaged_packages groups backends).1 ++ [Event.askConfirm] ++
            (if confirm then clean_execute (get_unmanaged_packages groups backends).1
              else []) := by
        simp only [clean_packages]
        rw [if_neg hn]
      rw [htr]
      constructor
      · intro hmem
        rcases List.mem_append.1 hmem with h1 | h1
        · rcases List.mem_append.1 h1 with h2 | h2
          · rcases List.mem_append.1 h2 with h3 | h3
            · rcases List.mem_append.1 h3 with h4 | h4
              · rcases hws _ h4 with ⟨_, _, he⟩
                cases he
              · simp at h4
            · exact (outSection_mem_render_listing _ s).1 h3
          · simp at h2
        · cases confirm with
          | false => simp at h1
          | true =>
            rw [if_pos rfl] at h1
            rcases clean_execute_events _ _ h1 with ⟨_, _, he⟩ | ⟨_, he⟩ <;> cases he
      · intro hex
        exact List.mem_append_left _ (List.mem_append_left _ (List.mem_append_right _
          ((outSection_mem_render_listing _ s).2 hex)))

/-- C9: a collection result has one entry per backend whose load-and-diff
succeeded (its diff being exactly the successful query result), no entry at
all for a backend whose query failed, and — the registry enumerating
distinct sections — at most one entry per distinct backend section. -/
theorem todo_entries_invariant (groups : List PkgGroup) (backends : List Backend)
    (hnodup : (backends.map Backend.sect).Nodup) :
    ((get_missing_packages groups backends).1 =
        backends.filterMap (fun b0 =>
          match Backend.get_missing_packages_sorted (Backend.load b0 groups) with
          | Except.ok d => some (Backend.load b0 groups, d)
          | Except.error _ => none) ∧
      ((get_missing_packages groups backends).1.map (fun e => e.1.sect)).Nodup ∧
      ∀ p ∈ (get_missing_packages groups backends).1,
        Backend.get_missing_packages_sorted p.1 = Except.ok p.2) ∧
    ((get_unmanaged_packages groups backends).1 =
        backends.filterMap (fun b0 =>
          match Backend.get_unmanaged_packages_sorted (Backend.load b0 groups) with
          | Except.ok d => some (Backend.load b0 groups, d)
          | Except.error _ => none) ∧
      ((get_unmanaged_packages groups backends).1.map (fun e => e.1.sect)).Nodup ∧
      ∀ p ∈ (get_unmanaged_packages groups backends).1,
        Backend.get_unmanaged_packages_sorted p.1 = Except.ok p.2) := by
  refine ⟨⟨collect_fst_eq _ groups backends, ?_, ?_⟩,
    collect_fst_eq _ groups backends, ?_, ?_⟩
  · exact List.Nodup.sublist (collect_fst_sects_sublist _ groups backends) hnodup
  · intro p hp
    rcases p with ⟨b, d⟩
    rcases (mem_collect_fst _ groups backends b d).1 hp with ⟨b0, _, _, hok⟩
    exact hok
  · exact List.Nodup.sublist (collect_fst_sects_sublist _ groups backends) hnodup
  · intro p hp
    rcases p with ⟨b, d⟩
    rcases (mem_collect_fst _ groups backends b d).1 hp with ⟨b0, _, _, hok⟩
    exact hok

/-- C9 witness: with distinct registry sections, the collected entries have
distinct sections and successful diffs. -/
theorem todo_entries_invariant_witness :
    (([bOne, bBad].map Backend.sect).Nodup) ∧
    ((get_missing_packages [] [bOne, bBad]).1.map (fun e => e.1.sect)).Nodup ∧
    ∀ p ∈ (get_missing_packages [] [bOne, bBad]).1,
      Backend.get_missing_packages_sorted p.1 = Except.ok p.2 :=
  ⟨by decide, ((todo_entries_invariant [] [bOne, bBad] (by decide)).1).2⟩
